import Mathlib

/-!
Verification development for the Columbia course scraper (`scraper_new.py`).

The development shallowly embeds the scraper's core pipeline:
fetch-with-retries, index-page code extraction, category discovery,
payload extraction (decode + JSON parse), shard harvest, and
deduplication.  Network effects are modelled by explicit oracles
(functions from attempt number / shard / department to a result);
BeautifulSoup's HTML parsing is modelled by passing the parsed
row/anchor structure (a list of rows, each a list of href strings)
as input, since the scraper only consumes `soup.select("table tr")`
rows and each anchor's `href` attribute.
-/

namespace Scraper

/-! ## Python values

A JSON-decodable Python value, as produced by `json.loads`.  Numbers that
are not plain integers (floats, `NaN`, `Infinity`) are kept as their
source lexeme in `vnum`. -/

inductive PyVal where
  | vnull : PyVal
  | vbool : Bool → PyVal
  | vint : Int → PyVal
  | vnum : String → PyVal
  | vstr : String → PyVal
  | vlist : List PyVal → PyVal
  | vdict : List (String × PyVal) → PyVal

mutual

/-- Boolean structural equality on `PyVal` (nested inductive, so the
`DecidableEq` instance is built by hand from this). -/
def beqVal : PyVal → PyVal → Bool
  | .vnull, .vnull => true
  | .vbool a, .vbool b => a == b
  | .vint a, .vint b => a == b
  | .vnum a, .vnum b => a == b
  | .vstr a, .vstr b => a == b
  | .vlist xs, .vlist ys => beqValList xs ys
  | .vdict xs, .vdict ys => beqValDict xs ys
  | _, _ => false

def beqValList : List PyVal → List PyVal → Bool
  | [], [] => true
  | x :: xs, y :: ys => beqVal x y && beqValList xs ys
  | _, _ => false

def beqValDict : List (String × PyVal) → List (String × PyVal) → Bool
  | [], [] => true
  | (k, v) :: xs, (l, w) :: ys => k == l && beqVal v w && beqValDict xs ys
  | _, _ => false

end

theorem beqValList_iff (xs : List PyVal)
    (ih : ∀ x, x ∈ xs → ∀ b, (beqVal x b = true ↔ x = b)) :
    ∀ ys, (beqValList xs ys = true ↔ xs = ys) := by
  induction xs with
  | nil => intro ys; cases ys <;> simp [beqValList]
  | cons x xs ihx =>
    intro ys
    cases ys with
    | nil => simp [beqValList]
    | cons y ys =>
      simp [beqValList, Bool.and_eq_true, ih x (by simp),
        ihx (fun z hz b => ih z (by simp [hz]) b) ys]

theorem beqValDict_iff (xs : List (String × PyVal))
    (ih : ∀ x, x ∈ xs → ∀ b, (beqVal x.2 b = true ↔ x.2 = b)) :
    ∀ ys, (beqValDict xs ys = true ↔ xs = ys) := by
  induction xs with
  | nil => intro ys; cases ys <;> simp [beqValDict]
  | cons x xs ihx =>
    intro ys
    cases ys with
    | nil => obtain ⟨k, v⟩ := x; simp [beqValDict]
    | cons y ys =>
      obtain ⟨k, v⟩ := x
      obtain ⟨l, w⟩ := y
      have hv := ih (k, v) (by simp) w
      simp only [beqValDict, Bool.and_eq_true, beq_iff_eq, hv,
        ihx (fun z hz b => ih z (by simp [hz]) b) ys, List.cons.injEq,
        Prod.mk.injEq]

theorem beqVal_iff : ∀ (a b : PyVal), (beqVal a b = true ↔ a = b)
  | .vnull, b => by cases b <;> simp [beqVal]
  | .vbool x, b => by cases b <;> simp [beqVal]
  | .vint x, b => by cases b <;> simp [beqVal]
  | .vnum x, b => by cases b <;> simp [beqVal]
  | .vstr x, b => by cases b <;> simp [beqVal]
  | .vlist xs, b => by
    cases b <;> simp [beqVal]
    exact beqValList_iff xs (fun x hx b => beqVal_iff x b) _
  | .vdict kvs, b => by
    cases b <;> simp [beqVal]
    exact beqValDict_iff kvs (fun kv hkv b => beqVal_iff kv.2 b) _
termination_by a _ => sizeOf a
decreasing_by
  · exact Nat.lt_trans (List.sizeOf_lt_of_mem hx) (by simp)
  · calc sizeOf kv.2 < sizeOf kv := by obtain ⟨k, v⟩ := kv; simp
      _ < sizeOf (PyVal.vdict kvs) :=
        Nat.lt_trans (List.sizeOf_lt_of_mem hkv) (by simp)

instance : DecidableEq PyVal := fun a b =>
  decidable_of_iff (beqVal a b = true) (beqVal_iff a b)

/-! ## RetryingFetcher (`fetch`, lines 56-63)

```python
async def fetch(session, url, params=None, retries=3):
    for _ in range(retries):
        try:
            async with session.get(url, params=params) as r:
                return await r.read()
        except:
            await asyncio.sleep(0.4)
    return None
```

The network is modelled by an oracle mapping the attempt index to the
outcome of `session.get(...)` + `r.read()`: either a raised exception
(any transport-level error) or an HTTP response carrying a status code
and body bytes.  The status code is part of the model precisely because
the source never inspects it.  The embedding returns the result
(`Option` of the body bytes) together with the number of attempts
started and the number of `asyncio.sleep` calls executed. -/

/-- One attempt's outcome: `raise` models any exception thrown by
`session.get`/`r.read`; `respond status body` models an HTTP response
(any status) whose `r.read()` yields `body`. -/
inductive Attempt where
  | raise : Attempt
  | respond : Nat → List Nat → Attempt

/-- Result of a `fetch` call: the returned value plus the observable
attempt/sleep counts. -/
structure FetchTrace where
  result : Option (List Nat)
  attempts : Nat
  sleeps : Nat
  deriving DecidableEq

/-- The retry loop of `fetch`, iterating from attempt `i` with `k`
iterations left.  A response returns its body at once (one attempt, no
sleep); an exception sleeps 0.4s and moves to the next iteration; an
exhausted loop returns `None`. -/
def fetchAux (oracle : Nat → Attempt) : Nat → Nat → FetchTrace
  | _, 0 => ⟨none, 0, 0⟩
  | i, k + 1 =>
    match oracle i with
    | .respond _ body => ⟨some body, 1, 0⟩
    | .raise =>
      let t := fetchAux oracle (i + 1) k
      ⟨t.result, t.attempts + 1, t.sleeps + 1⟩

/-- `fetch(session, url, params, retries)` with the network abstracted
into `oracle` (attempt number → outcome). -/
def fetch (oracle : Nat → Attempt) (retries : Nat) : FetchTrace :=
  fetchAux oracle 0 retries

/-! ## Python value helpers -/

/-- Python truthiness (`bool(v)`) of a JSON-decoded value.  For a
non-integer numeric lexeme (`vnum`) the value is falsy exactly when its
mantissa has no nonzero digit and no letter (so `0.0`, `0e5` are falsy
while `1.5`, `NaN`, `Infinity` are truthy). -/
def pyTruthy : PyVal → Bool
  | .vnull => false
  | .vbool b => b
  | .vint n => !(n == 0)
  | .vnum s =>
    (s.data.takeWhile (fun c => !(c == 'e') && !(c == 'E'))).any
      (fun c => ('1' ≤ c && c ≤ '9') || c.isAlpha)
  | .vstr s => !s.isEmpty
  | .vlist xs => !xs.isEmpty
  | .vdict kvs => !kvs.isEmpty

/-- Python `x or y`: `x` when truthy, else `y`. -/
def pyOr (a b : PyVal) : PyVal := if pyTruthy a then a else b

/-- Insertion into a Python dict: an existing key keeps its position and
gets the new value; a new key is appended. -/
def dictInsert (kvs : List (String × PyVal)) (k : String) (v : PyVal) :
    List (String × PyVal) :=
  match kvs with
  | [] => [(k, v)]
  | (k', v') :: rest =>
    if k' = k then (k', v) :: rest else (k', v') :: dictInsert rest k v

/-- Python `c.get(k)`: the value at key `k`, or `None` when absent. -/
def dictGet (kvs : List (String × PyVal)) (k : String) : PyVal :=
  match kvs with
  | [] => .vnull
  | (k', v) :: rest => if k' = k then v else dictGet rest k

/-- Lowercase hex digit for a value `< 16`. -/
def hexDigit (n : Nat) : Char :=
  if n < 10 then Char.ofNat ('0'.toNat + n) else Char.ofNat ('a'.toNat + n - 10)

/-- Python `repr` of one character inside a string literal quoted by
`quote` (backslash escapes, `\n`/`\r`/`\t`, `\xNN` for other control
characters). -/
def pyReprCharIn (quote : Char) (c : Char) : List Char :=
  if c = '\\' then ['\\', '\\']
  else if c = quote then ['\\', quote]
  else if c = '\n' then ['\\', 'n']
  else if c = '\r' then ['\\', 'r']
  else if c = '\t' then ['\\', 't']
  else if c.toNat < 32 || c.toNat = 127 then
    ['\\', 'x', hexDigit (c.toNat / 16), hexDigit (c.toNat % 16)]
  else [c]

/-- Python `repr` of a `str`: single quotes, unless the string contains
a single quote but no double quote. -/
def pyReprString (s : String) : String :=
  let q : Char := if s.data.contains '\'' && !(s.data.contains '"') then '"' else '\''
  String.mk (q :: s.data.flatMap (pyReprCharIn q) ++ [q])

/-- Comma-separated join as Python renders list/dict elements. -/
def joinComma : List String → String
  | [] => ""
  | [s] => s
  | s :: rest => s ++ ", " ++ joinComma rest

mutual

/-- Python `str(v)`/`repr(v)` for a JSON-decoded value (these agree on
containers; `str` on a container calls `repr` on the elements).  For a
`vnum` the stored lexeme stands in for Python's float formatting. -/
def pyRepr : PyVal → String
  | .vnull => "None"
  | .vbool b => if b then "True" else "False"
  | .vint n => toString n
  | .vnum s => s
  | .vstr s => pyReprString s
  | .vlist xs => "[" ++ joinComma (pyReprList xs) ++ "]"
  | .vdict kvs => "\x7b" ++ joinComma (pyReprDict kvs) ++ "\x7d"

def pyReprList : List PyVal → List String
  | [] => []
  | x :: xs => pyRepr x :: pyReprList xs

def pyReprDict : List (String × PyVal) → List String
  | [] => []
  | (k, v) :: kvs => (pyReprString k ++ ": " ++ pyRepr v) :: pyReprDict kvs

end

/-! ## Deduplicator (`get_courses`, lines 159-168)

```python
seen = set()
deduped = []
for c in all_courses:
    cid = c.get("id") or c.get("CourseNumber") or str(c)
    if cid not in seen:
        deduped.append(c)
        seen.add(cid)
```
-/

/-- A harvested record: a JSON object (Python dict), field name → value. -/
abbrev Record := List (String × PyVal)

/-- The identity key of line 163:
`cid = c.get("id") or c.get("CourseNumber") or str(c)` — Python `or`
falls through on *falsy* values, not merely on absent keys. -/
def courseKey (c : Record) : PyVal :=
  pyOr (dictGet c "id")
    (pyOr (dictGet c "CourseNumber") (.vstr (pyRepr (.vdict c))))

/-- The dedup loop with the running `seen` set made explicit. -/
def dedupeAux {α κ : Type} [DecidableEq κ] (key : α → κ) :
    List α → List κ → List α
  | [], _ => []
  | c :: cs, seen =>
    if key c ∈ seen then dedupeAux key cs seen
    else c :: dedupeAux key cs (key c :: seen)

/-- First-seen deduplication by a derived key (lines 159-168). -/
def dedupe {α κ : Type} [DecidableEq κ] (key : α → κ) (l : List α) : List α :=
  dedupeAux key l []

/-! ## Model of `json.loads`

A recursive-descent parser for the JSON grammar as accepted by Python's
`json.loads` (including the non-standard `NaN`/`Infinity`/`-Infinity`
literals and last-wins duplicate object keys).  Two modelling limits,
neither reachable from the claims: lone `\uXXXX` surrogate escapes are
rejected (Lean's `Char` cannot carry them), and non-integer numbers keep
their lexeme instead of becoming floats. -/

/-- JSON insignificant whitespace. -/
def isJsonWs (c : Char) : Bool := c == ' ' || c == '\t' || c == '\n' || c == '\r'

def skipWs (cs : List Char) : List Char := cs.dropWhile isJsonWs

def isDigitChar (c : Char) : Bool := '0' ≤ c && c ≤ '9'

/-- Numeric value of a hex digit character (code points 48-57, 97-102,
65-70), if it is one. -/
def hexVal (c : Char) : Option Nat :=
  let n := c.toNat
  if 48 ≤ n ∧ n ≤ 57 then some (n - 48)
  else if 97 ≤ n ∧ n ≤ 102 then some (n - 87)
  else if 65 ≤ n ∧ n ≤ 70 then some (n - 55)
  else none

/-- Four hex digits, as in a `\uXXXX` escape. -/
def parseHex4 : List Char → Option (Nat × List Char)
  | c1 :: c2 :: c3 :: c4 :: rest => do
    let h1 ← hexVal c1
    let h2 ← hexVal c2
    let h3 ← hexVal c3
    let h4 ← hexVal c4
    some (h1 * 4096 + h2 * 256 + h3 * 16 + h4, rest)
  | _ => none

/-- Body of a JSON string after the opening quote: accumulates decoded
characters (in reverse) until the closing quote.  Fails on raw control
characters, bad escapes, and lone surrogates. -/
def parseJStringAux : Nat → List Char → List Char → Option (String × List Char)
  | 0, _, _ => none
  | fuel + 1, acc, cs =>
    match cs with
    | [] => none
    | '"' :: rest => some (String.mk acc.reverse, rest)
    | '\\' :: e :: rest =>
      if e = '"' then parseJStringAux fuel ('"' :: acc) rest
      else if e = '\\' then parseJStringAux fuel ('\\' :: acc) rest
      else if e = '/' then parseJStringAux fuel ('/' :: acc) rest
      else if e = 'b' then parseJStringAux fuel (Char.ofNat 8 :: acc) rest
      else if e = 'f' then parseJStringAux fuel (Char.ofNat 12 :: acc) rest
      else if e = 'n' then parseJStringAux fuel ('\n' :: acc) rest
      else if e = 'r' then parseJStringAux fuel ('\r' :: acc) rest
      else if e = 't' then parseJStringAux fuel ('\t' :: acc) rest
      else if e = 'u' then
        match parseHex4 rest with
        | none => none
        | some (n, rest2) =>
          if 0xD800 ≤ n && n ≤ 0xDBFF then
            match rest2 with
            | '\\' :: 'u' :: rest3 =>
              match parseHex4 rest3 with
              | some (m, rest4) =>
                if 0xDC00 ≤ m && m ≤ 0xDFFF then
                  parseJStringAux fuel
                    (Char.ofNat (0x10000 + (n - 0xD800) * 1024 + (m - 0xDC00)) :: acc)
                    rest4
                else none
              | none => none
            | _ => none
          else if 0xDC00 ≤ n && n ≤ 0xDFFF then none
          else parseJStringAux fuel (Char.ofNat n :: acc) rest2
      else none
    | c :: rest =>
      if c.toNat < 32 then none
      else parseJStringAux fuel (c :: acc) rest

/-- Digit run to a natural number. -/
def digitsToNat (ds : List Char) : Nat :=
  ds.foldl (fun acc c => acc * 10 + (c.toNat - '0'.toNat)) 0

/-- Exponent part of a JSON number, starting at `e`/`E`; returns the
consumed lexeme and the remainder. -/
def parseExpPart (cs : List Char) : Option (List Char × List Char) :=
  match cs with
  | e :: rest =>
    if e = 'e' || e = 'E' then
      let (sgn, rest1) :=
        match rest with
        | '+' :: r => (['+'], r)
        | '-' :: r => (['-'], r)
        | _ => (([] : List Char), rest)
      let ds := rest1.takeWhile isDigitChar
      if ds.isEmpty then none
      else some (e :: (sgn ++ ds), rest1.dropWhile isDigitChar)
    else none
  | [] => none

/-- A JSON number starting at a `-` or a digit.  A plain integer becomes
`vint`; a number with a fraction or exponent keeps its lexeme in `vnum`.
Leading zeros and a bare `-` are rejected, as in `json.loads`. -/
def parseNum (cs : List Char) : Option (PyVal × List Char) :=
  let (neg, cs1) :=
    match cs with
    | '-' :: rest => (true, rest)
    | _ => (false, cs)
  let intPart := cs1.takeWhile isDigitChar
  let rest1 := cs1.dropWhile isDigitChar
  if intPart.isEmpty then none
  else if intPart.length > 1 && intPart.head? == some '0' then none
  else
    let sign : Int := if neg then -1 else 1
    let lexHead := (if neg then ['-'] else []) ++ intPart
    match rest1 with
    | '.' :: rest2 =>
      let frac := rest2.takeWhile isDigitChar
      let rest3 := rest2.dropWhile isDigitChar
      if frac.isEmpty then none
      else
        match parseExpPart rest3 with
        | some (expLex, rest4) =>
          some (.vnum (String.mk (lexHead ++ '.' :: frac ++ expLex)), rest4)
        | none =>
          if rest3.head? = some 'e' || rest3.head? = some 'E' then none
          else some (.vnum (String.mk (lexHead ++ '.' :: frac)), rest3)
    | 'e' :: _ =>
      match parseExpPart rest1 with
      | some (expLex, rest2) => some (.vnum (String.mk (lexHead ++ expLex)), rest2)
      | none => none
    | 'E' :: _ =>
      match parseExpPart rest1 with
      | some (expLex, rest2) => some (.vnum (String.mk (lexHead ++ expLex)), rest2)
      | none => none
    | _ => some (.vint (sign * (digitsToNat intPart : Int)), rest1)

/-- `listStartsWith pat cs`: `pat` is an initial segment of `cs`. -/
def listStartsWith [DecidableEq α] : List α → List α → Bool
  | [], _ => true
  | _ :: _, [] => false
  | p :: ps, c :: cs => p = c && listStartsWith ps cs

mutual

/-- One JSON value, fuel-bounded (the fuel only ever runs out on inputs
longer than the initial budget allows, see `pyLoads`). -/
def parseVal : Nat → List Char → Option (PyVal × List Char)
  | 0, _ => none
  | fuel + 1, cs =>
    match skipWs cs with
    | [] => none
    | c :: rest =>
      if c = '[' then
        match skipWs rest with
        | ']' :: rest2 => some (.vlist [], rest2)
        | _ =>
          match parseItems fuel rest with
          | some (xs, rest2) => some (.vlist xs, rest2)
          | none => none
      else if c = '\x7b' then
        match skipWs rest with
        | '\x7d' :: rest2 => some (.vdict [], rest2)
        | _ =>
          match parseMembers fuel rest [] with
          | some (kvs, rest2) => some (.vdict kvs, rest2)
          | none => none
      else if c = '"' then
        match parseJStringAux (rest.length + 1) [] rest with
        | some (s, rest2) => some (.vstr s, rest2)
        | none => none
      else if c = 't' then
        if listStartsWith "rue".data rest then some (.vbool true, rest.drop 3) else none
      else if c = 'f' then
        if listStartsWith "alse".data rest then some (.vbool false, rest.drop 4) else none
      else if c = 'n' then
        if listStartsWith "ull".data rest then some (.vnull, rest.drop 3) else none
      else if c = 'N' then
        if listStartsWith "aN".data rest then some (.vnum "NaN", rest.drop 2) else none
      else if c = 'I' then
        if listStartsWith "nfinity".data rest then
          some (.vnum "Infinity", rest.drop 7)
        else none
      else if c = '-' then
        if listStartsWith "Infinity".data rest then
          some (.vnum "-Infinity", rest.drop 8)
        else parseNum (c :: rest)
      else if isDigitChar c then parseNum (c :: rest)
      else none

/-- Nonempty comma-separated item list of a JSON array, up to `]`. -/
def parseItems : Nat → List Char → Option (List PyVal × List Char)
  | 0, _ => none
  | fuel + 1, cs =>
    match parseVal fuel cs with
    | none => none
    | some (v, rest) =>
      match skipWs rest with
      | ',' :: rest2 =>
        match parseItems fuel rest2 with
        | some (xs, rest3) => some (v :: xs, rest3)
        | none => none
      | ']' :: rest2 => some ([v], rest2)
      | _ => none

/-- Nonempty member list of a JSON object, up to `}`; duplicate keys
resolve last-wins at the first key's position, as a Python dict does. -/
def parseMembers : Nat → List Char → List (String × PyVal) →
    Option (List (String × PyVal) × List Char)
  | 0, _, _ => none
  | fuel + 1, cs, acc =>
    match skipWs cs with
    | '"' :: rest =>
      match parseJStringAux (rest.length + 1) [] rest with
      | some (k, rest2) =>
        match skipWs rest2 with
        | ':' :: rest3 =>
          match parseVal fuel rest3 with
          | some (v, rest4) =>
            match skipWs rest4 with
            | ',' :: rest5 => parseMembers fuel rest5 (dictInsert acc k v)
            | '\x7d' :: rest5 => some (dictInsert acc k v, rest5)
            | _ => none
          | none => none
        | _ => none
      | none => none
    | _ => none

end

/-- `json.loads(s)`: one JSON document with nothing but whitespace
after it. -/
def pyLoads (cs : List Char) : Option PyVal :=
  match parseVal (2 * cs.length + 8) cs with
  | some (v, rest) => if skipWs rest = [] then some v else none
  | none => none

/-! ## Model of `raw.decode("utf-8", errors="ignore")` -/

/-- A UTF-8 continuation byte. -/
def isCont (b : Nat) : Bool := 0x80 ≤ b && b ≤ 0xBF

/-- Valid first continuation byte after a three-byte lead (excludes
overlong forms and surrogates). -/
def cont1ok3 (b b2 : Nat) : Bool :=
  if b = 0xE0 then 0xA0 ≤ b2 && b2 ≤ 0xBF
  else if b = 0xED then 0x80 ≤ b2 && b2 ≤ 0x9F
  else isCont b2

/-- Valid first continuation byte after a four-byte lead (excludes
overlong forms and values beyond U+10FFFF). -/
def cont1ok4 (b b2 : Nat) : Bool :=
  if b = 0xF0 then 0x90 ≤ b2 && b2 ≤ 0xBF
  else if b = 0xF4 then 0x80 ≤ b2 && b2 ≤ 0x8F
  else isCont b2

/-- UTF-8 decoding with `errors="ignore"`, fuel-bounded: an invalid
sequence's bytes are dropped (the scan resumes at the first byte that
broke the sequence) and decoding continues.  Every step consumes at
least one byte, so fuel = length suffices (see `pyDecode`). -/
def pyDecodeAux : Nat → List Nat → List Char
  | 0, _ => []
  | fuel + 1, bytes =>
    match bytes with
    | [] => []
    | b :: bs =>
      if b ≤ 0x7F then Char.ofNat b :: pyDecodeAux fuel bs
      else if 0xC2 ≤ b && b ≤ 0xDF then
        match bs with
        | [] => []
        | b2 :: bs2 =>
          if isCont b2 then
            Char.ofNat ((b - 0xC0) * 0x40 + (b2 - 0x80)) :: pyDecodeAux fuel bs2
          else pyDecodeAux fuel bs
      else if 0xE0 ≤ b && b ≤ 0xEF then
        match bs with
        | [] => []
        | b2 :: bs2 =>
          if cont1ok3 b b2 then
            match bs2 with
            | [] => []
            | b3 :: bs3 =>
              if isCont b3 then
                Char.ofNat ((b - 0xE0) * 0x1000 + (b2 - 0x80) * 0x40 + (b3 - 0x80)) ::
                  pyDecodeAux fuel bs3
              else pyDecodeAux fuel bs2
          else pyDecodeAux fuel bs
      else if 0xF0 ≤ b && b ≤ 0xF4 then
        match bs with
        | [] => []
        | b2 :: bs2 =>
          if cont1ok4 b b2 then
            match bs2 with
            | [] => []
            | b3 :: bs3 =>
              if isCont b3 then
                match bs3 with
                | [] => []
                | b4 :: bs4 =>
                  if isCont b4 then
                    Char.ofNat ((b - 0xF0) * 0x40000 + (b2 - 0x80) * 0x1000 +
                        (b3 - 0x80) * 0x40 + (b4 - 0x80)) :: pyDecodeAux fuel bs4
                  else pyDecodeAux fuel bs3
              else pyDecodeAux fuel bs2
          else pyDecodeAux fuel bs
      else pyDecodeAux fuel bs

/-- `raw.decode("utf-8", errors="ignore")`. -/
def pyDecode (bytes : List Nat) : List Char := pyDecodeAux bytes.length bytes

/-! ## PayloadExtractor (`get_courses`, lines 146-157)

```python
text = raw.decode("utf-8", errors="ignore")
json_start = text.find("[")
if json_start == -1:
    ...  # "No JSON array found", skip
try:
    data = json.loads(text[json_start:])
    all_courses.extend(data)
except Exception as e:
    ...  # "JSON error", skip
```
-/

inductive ParseResult where
  | ok : PyVal → ParseResult
  | noDelimiter : ParseResult
  | malformed : ParseResult
  deriving DecidableEq

/-- Payload extraction from a raw response body: decode (dropping
invalid byte sequences), cut at the first `[` (`text.find("[")`),
`json.loads` the rest.  An empty `dropWhile` result is exactly
`json_start == -1`. -/
def extract (raw : List Nat) : ParseResult :=
  match (pyDecode raw).dropWhile (fun c => !(c == '[')) with
  | [] => .noDelimiter
  | c :: cs =>
    match pyLoads (c :: cs) with
    | some v => .ok v
    | none => .malformed

/-- ASCII text as its byte sequence (each listed character must be
ASCII for this to match the UTF-8 encoding). -/
def asciiBytes (s : String) : List Nat := s.data.map Char.toNat

/-! ## IndexParser (`parse_department_page`, lines 68-84)

```python
def parse_department_page(html, semester):
    soup = BeautifulSoup(html, "lxml")
    regex = re.compile(r"/(\w{2,6})_" + re.escape(semester) + r"\.html")
    depts = []
    rows = soup.select("table tr")[3:-1]
    for row in rows:
        for a in row.find_all("a"):
            href = a.get("href", "")
            m = regex.search(href)
            if m:
                depts.append(m.group(1))
    return depts
```

BeautifulSoup's HTML parsing is external library code; the scraper only
consumes the selected table rows and each anchor's `href` string, so the
embedding takes that structure — one `List String` of hrefs per `tr`
row — as the function's input.  The `re.search` of the compiled pattern
is modelled exactly: leftmost match wins, and at a match position the
`\w{2,6}` quantifier backtracks greedily from six characters down to
two.  `\w` is modelled at ASCII scope (letters, digits, underscore). -/

/-- A regex `\w` word character (ASCII scope). -/
def isWordChar (c : Char) : Bool := c.isAlphanum || c == '_'

/-- The fixed part of the pattern after the captured code:
`_<semester>.html`. -/
def tailPat (sem : List Char) : List Char := '_' :: (sem ++ ".html".data)

/-- One backtracking step of `(\w{2,6})_<sem>\.html` at a fixed start:
succeed iff the next `n` characters are word characters followed by the
fixed tail. -/
def tryCodeLen (cs sem : List Char) (n : Nat) : Option (List Char) :=
  let code := cs.take n
  if code.length = n && code.all isWordChar && listStartsWith (tailPat sem) (cs.drop n)
  then some code else none

/-- The group captured by `(\w{2,6})_<sem>\.html` right after a `/`,
greedy: six characters first, then shorter. -/
def matchCodeAt (cs sem : List Char) : Option (List Char) :=
  (tryCodeLen cs sem 6) <|> (tryCodeLen cs sem 5) <|> (tryCodeLen cs sem 4) <|>
    (tryCodeLen cs sem 3) <|> (tryCodeLen cs sem 2)

/-- `re.search(r"/(\w{2,6})_<sem>\.html", href)`: scan start positions
left to right; the pattern's literal `/` anchors each candidate. -/
def searchCode : List Char → List Char → Option (List Char)
  | [], _ => none
  | c :: cs, sem =>
    if c = '/' then
      match matchCodeAt cs sem with
      | some code => some code
      | none => searchCode cs sem
    else searchCode cs sem

/-- `parse_department_page`, taking the soup structure (rows of anchor
hrefs) and the semester token.  Note the `[3:-1]` row slice and that
the result is a *list*, in scan order, possibly with duplicates. -/
def parse_department_page (rows : List (List String)) (semester : String) :
    List String :=
  ((rows.drop 3).dropLast).flatMap fun row =>
    row.filterMap fun href =>
      (searchCode href.data semester.data).map fun code => String.mk code

/-! ## CategoryDiscoverer (`get_departments` + manual union, lines 97-123)

```python
tasks = [fetch(session, f"{UWB_ROOT}/dept-{chr(c)}.html") for c in range(65, 91)]
pages = await asyncio.gather(*tasks)
all_depts = []
for page in pages:
    if not page:
        continue
    all_depts += parse_department_page(page, semester)
return sorted(set(all_depts))
...
MANUAL_DEPTS = ["HIST", "UNHS", "UNHI", "GUHIS"]
departments = sorted(set(departments + MANUAL_DEPTS))
```

The 26 per-letter index fetches are abstracted into an oracle from the
shard index to the `fetch` result (`none` = all retries exhausted), and
BeautifulSoup into a `soup` function from page bytes to the selected
row/anchor structure. -/

/-- Code-point lexicographic `<=` on character lists — the comparison
Python's `sorted` uses on strings. -/
def lexLe : List Char → List Char → Bool
  | [], _ => true
  | _ :: _, [] => false
  | a :: as, b :: bs =>
    if a.toNat < b.toNat then true
    else if a.toNat = b.toNat then lexLe as bs
    else false

/-- Python string `<=`. -/
def strLe (a b : String) : Bool := lexLe a.data b.data

/-- Python `sorted(set(l))` on strings: distinct elements in code-point
lexicographic order. -/
def sortedDedup (l : List String) : List String :=
  List.insertionSort (fun a b => strLe a b = true) l.dedup

/-- The discovery phase `get_departments`: join the 26 shard fetches,
skip falsy pages (`None` or empty bytes), parse the rest, and return
the sorted deduplicated union. -/
def get_departments (soup : List Nat → List (List String))
    (oracle : Fin 26 → Option (List Nat)) (semester : String) : List String :=
  sortedDedup <| (List.finRange 26).flatMap fun i =>
    match oracle i with
    | none => []
    | some page =>
      if page = [] then [] else parse_department_page (soup page) semester

/-- The hardcoded fallback department list (line 120). -/
def MANUAL_DEPTS : List String := ["HIST", "UNHS", "UNHI", "GUHIS"]

/-- Discovery plus the manual-fallback union of line 121:
`sorted(set(departments + manual))`. -/
def discover (soup : List Nat → List (List String))
    (oracle : Fin 26 → Option (List Nat)) (semester : String)
    (manual : List String) : List String :=
  sortedDedup (get_departments soup oracle semester ++ manual)

/-! ## ShardHarvester (`get_courses` loop, lines 133-157)

```python
for dept in tqdm(departments, ...):
    params = {"dept": dept, "key": "*", "moreresults": "2", "term": term_code}
    raw = await fetch(session, f"{VERGIL_ROOT}/doc-adv-queries.php", params=params)
    if not raw:
        ...  # "No response", skip
        continue
    text = raw.decode("utf-8", errors="ignore")
    json_start = text.find("[")
    if json_start == -1:
        ...  # skip
    try:
        data = json.loads(text[json_start:])
        all_courses.extend(data)
    except Exception:
        ...  # skip
```

The per-department `fetch` is abstracted into an oracle from the
department code to the fetch result. -/

/-- One department's contribution to `all_courses`: nothing on fetch
failure, an empty/falsy body, or a parse failure; otherwise the decoded
payload's elements.  (A successful `extract` parses from a `[`
delimiter, so it is always a `vlist` — see `pyLoads_lbrack` — and the
catch-all arm is unreachable for `.ok` results.) -/
def harvestDept (oracle : String → Option (List Nat)) (dept : String) :
    List PyVal :=
  match oracle dept with
  | none => []
  | some raw =>
    if raw = [] then []
    else
      match extract raw with
      | .ok (.vlist xs) => xs
      | _ => []

/-- The harvest loop: iterate the departments in their given order,
appending each department's contribution to the accumulator. -/
def harvestAll (oracle : String → Option (List Nat)) (depts : List String) :
    List PyVal :=
  depts.foldl (fun acc dept => acc ++ harvestDept oracle dept) []

/-! ## Theorems -/

/-- On an all-raising oracle the retry loop runs all `k` iterations
from any starting attempt, returns `None`, and sleeps once per failed
iteration — including after the last one. -/
theorem fetchAux_allRaise (oracle : Nat → Attempt)
    (h : ∀ j, oracle j = .raise) : ∀ k i, fetchAux oracle i k = ⟨none, k, k⟩ := by
  intro k
  induction k with
  | zero => intro i; rfl
  | succ k ih =>
    intro i
    simp [fetchAux, h i, ih (i + 1)]

/-- C1 (corrected): an always-failing fetch source makes `fetch` perform
exactly `max_attempts` attempts and return the failure signal `None` as
a value (the embedding is a total function, so no exception escapes) —
but the fixed 0.4s backoff is slept after *every* failed attempt, the
final one included, so `max_attempts` delays occur, not
`max_attempts - 1`. -/
theorem fetch_retry_exhaustion (oracle : Nat → Attempt) (maxAttempts : Nat)
    (h : ∀ j, oracle j = .raise) :
    fetch oracle maxAttempts = ⟨none, maxAttempts, maxAttempts⟩ :=
  fetchAux_allRaise oracle h maxAttempts 0

/-- C1 witness: the exhaustion theorem applied to the always-raising
oracle with the source's default `retries=3`. -/
theorem fetch_retry_exhaustion_witness :
    fetch (fun _ => .raise) 3 = ⟨none, 3, 3⟩ :=
  fetch_retry_exhaustion (fun _ => .raise) 3 (fun _ => rfl)

/-- C1 counterexample: with `max_attempts = 3` and every attempt
failing, the code sleeps 3 times, not the `max_attempts - 1 = 2` times
the claim states. -/
theorem fetch_backoff_count_counterexample :
    (fetch (fun _ => .raise) 3).result = none ∧
    (fetch (fun _ => .raise) 3).attempts = 3 ∧
    (fetch (fun _ => .raise) 3).sleeps = 3 ∧
    (fetch (fun _ => .raise) 3).sleeps ≠ 3 - 1 := by
  refine ⟨rfl, rfl, rfl, ?_⟩
  decide

/-- C9 (confirmed): `fetch` never inspects the HTTP status code — any
response at all on the first attempt, including one carrying an error
status such as 404 or 500, is returned as raw body bytes after exactly
one attempt and zero backoff sleeps; only a raised transport-level
exception reaches the retry path. -/
theorem fetch_ignores_status (oracle : Nat → Attempt) (status : Nat)
    (body : List Nat) (retries : Nat) (h0 : oracle 0 = .respond status body)
    (h1 : 1 ≤ retries) :
    fetch oracle retries = ⟨some body, 1, 0⟩ := by
  obtain ⟨k, rfl⟩ : ∃ k, retries = k + 1 :=
    ⟨retries - 1, (Nat.succ_pred_eq_of_pos h1).symm⟩
  simp [fetch, fetchAux, h0]

/-- C9 witness: a 404 response with body bytes `"404"` is returned
as-is on the first of 3 attempts. -/
theorem fetch_ignores_status_witness :
    fetch (fun _ => .respond 404 [52, 48, 52]) 3 = ⟨some [52, 48, 52], 1, 0⟩ :=
  fetch_ignores_status (fun _ => .respond 404 [52, 48, 52]) 404 [52, 48, 52] 3
    rfl (by decide)

/-- Membership in `sorted(set(l))` is membership in `l`. -/
theorem mem_sortedDedup {l : List String} {x : String} :
    x ∈ sortedDedup l ↔ x ∈ l := by
  unfold sortedDedup
  rw [(List.perm_insertionSort (fun a b => strLe a b = true) l.dedup).mem_iff]
  exact List.mem_dedup

/-- C2 (corrected): the discovered category list always *contains* every
`manual_fallback` code, whatever the per-shard fetch outcomes and the
page structure — but it is a (possibly non-strict) superset, not the
strict superset the claim states; see the counterexample where all
fetches fail. -/
theorem discover_superset (soup : List Nat → List (List String))
    (oracle : Fin 26 → Option (List Nat)) (semester : String)
    (manual : List String) :
    ∀ d ∈ manual, d ∈ discover soup oracle semester manual := by
  intro d hd
  unfold discover
  exact mem_sortedDedup.mpr (List.mem_append_right _ hd)

/-- C2 witness: the superset theorem applied with every shard fetch
failing and the source's hardcoded fallback list. -/
theorem discover_superset_witness :
    "HIST" ∈ discover (fun _ => []) (fun _ => none) "Fall2025" MANUAL_DEPTS :=
  discover_superset (fun _ => []) (fun _ => none) "Fall2025" MANUAL_DEPTS
    "HIST" (by decide)

/-- Python `k in c` / value lookup distinguishing a key that is absent
from one present with value `None`: used to state the spec's
presence-based fallback chain. -/
def dictFind (kvs : List (String × PyVal)) (k : String) : Option PyVal :=
  match kvs with
  | [] => none
  | (k', v) :: rest => if k' = k then some v else dictFind rest k

/-- The identity key as the claim words it: the primary id field's value
whenever the field is *present*, else the secondary field's value when
present, else the full-record string representation. -/
def specCourseKeyPresence (c : Record) : PyVal :=
  match dictFind c "id" with
  | some v => v
  | none =>
    match dictFind c "CourseNumber" with
    | some v => v
    | none => .vstr (pyRepr (.vdict c))

/-- The identity key as the amended claim words it: the primary id
field's value when present *and truthy*, else the secondary field's
value when present and truthy, else the full-record string
representation. -/
def specCourseKeyTruthy (c : Record) : PyVal :=
  match dictFind c "id" with
  | some v =>
    if pyTruthy v then v
    else
      match dictFind c "CourseNumber" with
      | some w => if pyTruthy w then w else .vstr (pyRepr (.vdict c))
      | none => .vstr (pyRepr (.vdict c))
  | none =>
    match dictFind c "CourseNumber" with
    | some w => if pyTruthy w then w else .vstr (pyRepr (.vdict c))
    | none => .vstr (pyRepr (.vdict c))

/-- `c.get(k)` is the found value, defaulting to `None`. -/
theorem dictGet_eq_dictFind (kvs : List (String × PyVal)) (k : String) :
    dictGet kvs k = (dictFind kvs k).getD .vnull := by
  induction kvs with
  | nil => rfl
  | cons kv rest ih =>
    obtain ⟨k', v⟩ := kv
    by_cases h : k' = k <;> simp [dictGet, dictFind, h, ih]

/-- C2 counterexample: when every shard fetch fails, discovery over the
hardcoded fallback list returns exactly the fallback codes and nothing
else — the same set of codes, so the output is *not* a strict superset
of `manual_fallback`. -/
theorem discover_not_strict_counterexample :
    discover (fun _ => []) (fun _ => none) "Fall2025" MANUAL_DEPTS =
      ["GUHIS", "HIST", "UNHI", "UNHS"] ∧
    (∀ x ∈ discover (fun _ => []) (fun _ => none) "Fall2025" MANUAL_DEPTS,
      x ∈ MANUAL_DEPTS) ∧
    (∀ x ∈ MANUAL_DEPTS,
      x ∈ discover (fun _ => []) (fun _ => none) "Fall2025" MANUAL_DEPTS) := by
  refine ⟨by decide, by decide, by decide⟩

/-- C3 counterexample: a record whose `id` field is *present* but falsy
(the empty string) takes its key from `CourseNumber`, not from the
present primary field — Python's `or` falls through on falsiness, so
the claim's presence-based fallback chain does not describe the code. -/
theorem courseKey_not_presence_counterexample :
    courseKey [("id", .vstr ""), ("CourseNumber", .vstr "A")] = .vstr "A" ∧
    specCourseKeyPresence [("id", .vstr ""), ("CourseNumber", .vstr "A")] =
      .vstr "" ∧
    courseKey [("id", .vstr ""), ("CourseNumber", .vstr "A")] ≠
      specCourseKeyPresence [("id", .vstr ""), ("CourseNumber", .vstr "A")] := by
  refine ⟨rfl, rfl, by decide⟩

/-- C3 (corrected): the identity key follows the fallback chain on
*truthiness*, not mere presence: the `id` value when present and truthy,
else the `CourseNumber` value when present and truthy, else the
full-record string representation.  Determinism and first-vs-later
consistency hold because `courseKey` is a pure function of the record. -/
theorem courseKey_truthy_fallback (c : Record) :
    courseKey c = specCourseKeyTruthy c := by
  unfold courseKey specCourseKeyTruthy pyOr
  rw [dictGet_eq_dictFind, dictGet_eq_dictFind]
  cases h1 : dictFind c "id" with
  | none =>
    cases h2 : dictFind c "CourseNumber" with
    | none => simp [Option.getD, pyTruthy]
    | some w => simp [Option.getD, pyTruthy]
  | some v =>
    cases h2 : dictFind c "CourseNumber" with
    | none => simp [Option.getD, pyTruthy]
    | some w => simp [Option.getD]

/-- Everything the dedup loop keeps comes from the input and carries a
key outside the starting `seen` set. -/
theorem mem_of_mem_dedupeAux {α κ : Type} [DecidableEq κ] (key : α → κ) :
    ∀ (l : List α) (seen : List κ) (r : α),
      r ∈ dedupeAux key l seen → r ∈ l ∧ key r ∉ seen := by
  intro l
  induction l with
  | nil => intro seen r h; simp [dedupeAux] at h
  | cons c cs ih =>
    intro seen r h
    by_cases hc : key c ∈ seen
    · simp only [dedupeAux, if_pos hc] at h
      obtain ⟨h1, h2⟩ := ih seen r h
      exact ⟨List.mem_cons_of_mem _ h1, h2⟩
    · simp only [dedupeAux, if_neg hc] at h
      rcases List.mem_cons.mp h with rfl | h
      · exact ⟨List.mem_cons_self _ _, hc⟩
      · obtain ⟨h1, h2⟩ := ih _ r h
        simp only [List.mem_cons, not_or] at h2
        exact ⟨List.mem_cons_of_mem _ h1, h2.2⟩

/-- The dedup loop's output is a sublist of its input: retained records
keep their original relative order. -/
theorem dedupeAux_sublist {α κ : Type} [DecidableEq κ] (key : α → κ) :
    ∀ (l : List α) (seen : List κ), List.Sublist (dedupeAux key l seen) l := by
  intro l
  induction l with
  | nil => intro seen; simp [dedupeAux]
  | cons c cs ih =>
    intro seen
    by_cases hc : key c ∈ seen
    · simp only [dedupeAux, if_pos hc]
      exact (ih seen).cons _
    · simp only [dedupeAux, if_neg hc]
      exact (ih _).cons₂ _

/-- The dedup loop's output has pairwise-distinct keys. -/
theorem nodup_keys_dedupeAux {α κ : Type} [DecidableEq κ] (key : α → κ) :
    ∀ (l : List α) (seen : List κ), ((dedupeAux key l seen).map key).Nodup := by
  intro l
  induction l with
  | nil => intro seen; simp [dedupeAux]
  | cons c cs ih =>
    intro seen
    by_cases hc : key c ∈ seen
    · simpa only [dedupeAux, if_pos hc] using ih seen
    · simp only [dedupeAux, if_neg hc, List.map_cons, List.nodup_cons]
      refine ⟨?_, ih _⟩
      intro hmem
      obtain ⟨r, hr, hkey⟩ := List.mem_map.mp hmem
      have h2 := (mem_of_mem_dedupeAux key cs _ r hr).2
      rw [hkey] at h2
      exact h2 (List.mem_cons_self _ _)

/-- Every record the dedup loop keeps is the *first* input record with
its key. -/
theorem find?_dedupeAux {α κ : Type} [DecidableEq κ] (key : α → κ) :
    ∀ (l : List α) (seen : List κ) (r : α), r ∈ dedupeAux key l seen →
      l.find? (fun x => decide (key x = key r)) = some r := by
  intro l
  induction l with
  | nil => intro seen r h; simp [dedupeAux] at h
  | cons c cs ih =>
    intro seen r h
    by_cases hc : key c ∈ seen
    · simp only [dedupeAux, if_pos hc] at h
      have hne : key c ≠ key r := by
        intro he
        exact (mem_of_mem_dedupeAux key cs seen r h).2 (he ▸ hc)
      rw [List.find?_cons_of_neg _ (by simpa using hne), ih seen r h]
    · simp only [dedupeAux, if_neg hc] at h
      rcases List.mem_cons.mp h with rfl | h
      · rw [List.find?_cons_of_pos _ (by simp)]
      · have h2 := (mem_of_mem_dedupeAux key cs _ r h).2
        have hne : key c ≠ key r := by
          intro he
          exact h2 (he ▸ List.mem_cons_self _ _)
        rw [List.find?_cons_of_neg _ (by simpa using hne), ih _ r h]

/-- Every input record whose key is not already seen has a
representative with its key in the dedup loop's output. -/
theorem key_mem_dedupeAux {α κ : Type} [DecidableEq κ] (key : α → κ) :
    ∀ (l : List α) (seen : List κ) (r : α), r ∈ l → key r ∉ seen →
      ∃ r' ∈ dedupeAux key l seen, key r' = key r := by
  intro l
  induction l with
  | nil => intro seen r hr; simp at hr
  | cons c cs ih =>
    intro seen r hr hseen
    by_cases hc : key c ∈ seen
    · simp only [dedupeAux, if_pos hc]
      rcases List.mem_cons.mp hr with rfl | hr
      · exact absurd hc hseen
      · exact ih seen r hr hseen
    · simp only [dedupeAux, if_neg hc]
      by_cases hkey : key r = key c
      · exact ⟨c, List.mem_cons_self _ _, hkey.symm⟩
      · rcases List.mem_cons.mp hr with rfl | hr
        · exact absurd rfl hkey
        · obtain ⟨r', hr', he⟩ := ih (key c :: seen) r hr (by simp [hkey, hseen])
          exact ⟨r', List.mem_cons_of_mem _ hr', he⟩

/-- A list whose keys are pairwise distinct and disjoint from `seen`
passes through the dedup loop unchanged. -/
theorem dedupeAux_eq_self {α κ : Type} [DecidableEq κ] (key : α → κ) :
    ∀ (l : List α) (seen : List κ), ((l.map key).Nodup) →
      (∀ r ∈ l, key r ∉ seen) → dedupeAux key l seen = l := by
  intro l
  induction l with
  | nil => intro seen _ _; rfl
  | cons c cs ih =>
    intro seen hnodup hdisj
    have hc : key c ∉ seen := hdisj c (List.mem_cons_self _ _)
    rw [List.map_cons] at hnodup
    have hn := List.nodup_cons.mp hnodup
    simp only [dedupeAux, if_neg hc]
    congr 1
    refine ih _ hn.2 ?_
    intro r hr
    simp only [List.mem_cons, not_or]
    constructor
    · intro he
      exact hn.1 (he ▸ List.mem_map_of_mem key hr)
    · exact hdisj r (List.mem_cons_of_mem _ hr)

/-- C4 (confirmed): the deduplicated output (a) keeps records in their
original relative order (it is a sublist of the input), (b) contains at
most one record per distinct `IdentityKey` (its key list has no
duplicates), (c) keeps, for each retained record, exactly the first
input record with that key, and (d) represents every input record's
key. -/
theorem dedupe_first_wins (l : List Record) :
    List.Sublist (dedupe courseKey l) l ∧
    ((dedupe courseKey l).map courseKey).Nodup ∧
    (∀ r ∈ dedupe courseKey l,
      l.find? (fun x => decide (courseKey x = courseKey r)) = some r) ∧
    (∀ r ∈ l, ∃ r' ∈ dedupe courseKey l, courseKey r' = courseKey r) :=
  ⟨dedupeAux_sublist courseKey l [],
   nodup_keys_dedupeAux courseKey l [],
   fun r hr => find?_dedupeAux courseKey l [] r hr,
   fun r hr => key_mem_dedupeAux courseKey l [] r hr (by simp)⟩

/-- C4 witness: on records X, Y, X' where X and X' share id `"X"`, the
survivor for that key is the first occurrence X. -/
theorem dedupe_first_wins_witness :
    List.find?
        (fun x => decide (courseKey x = courseKey [("id", PyVal.vstr "X")]))
        [[("id", PyVal.vstr "X")], [("id", PyVal.vstr "Y")],
          [("id", PyVal.vstr "X"), ("foo", PyVal.vint 1)]] =
      some [("id", PyVal.vstr "X")] :=
  (dedupe_first_wins
      [[("id", PyVal.vstr "X")], [("id", PyVal.vstr "Y")],
        [("id", PyVal.vstr "X"), ("foo", PyVal.vint 1)]]).2.2.1
    [("id", PyVal.vstr "X")] (by decide)

/-- C5 (confirmed): deduplication is idempotent — deduplicating an
already-deduplicated record sequence changes nothing, since the first
pass leaves pairwise-distinct keys. -/
theorem dedupe_idempotent (l : List Record) :
    dedupe courseKey (dedupe courseKey l) = dedupe courseKey l :=
  dedupeAux_eq_self courseKey (dedupe courseKey l) []
    (nodup_keys_dedupeAux courseKey l []) (by simp)

/-- The head surviving a `dropWhile` falsifies the predicate. -/
theorem dropWhile_head_false {α : Type} {p : α → Bool} :
    ∀ {l : List α} {c : α} {cs : List α}, l.dropWhile p = c :: cs → p c = false := by
  intro l
  induction l with
  | nil => intro c cs h; simp at h
  | cons a as ih =>
    intro c cs h
    by_cases ha : p a
    · rw [List.dropWhile_cons_of_pos ha] at h
      exact ih h
    · rw [List.dropWhile_cons_of_neg ha] at h
      cases h
      simpa using ha

/-- A JSON document that starts (before any whitespace) at a `[` can
only parse to a list value. -/
theorem parseVal_lbrack : ∀ {fuel : Nat} {cs rest : List Char} {v : PyVal},
    parseVal fuel ('[' :: cs) = some (v, rest) → ∃ xs, v = .vlist xs := by
  intro fuel cs rest v h
  cases fuel with
  | zero => simp [parseVal] at h
  | succ fuel =>
    have hws : skipWs ('[' :: cs) = '[' :: cs := rfl
    rw [parseVal, hws] at h
    simp only [reduceIte] at h
    cases hsk : skipWs cs with
    | nil =>
      rw [hsk] at h
      cases hit : parseItems fuel cs with
      | none => rw [hit] at h; simp at h
      | some pr => rw [hit] at h; simp at h; exact ⟨pr.1, h.1.symm⟩
    | cons c2 rest2 =>
      rw [hsk] at h
      by_cases hc2 : c2 = ']'
      · subst hc2
        simp at h
        exact ⟨[], h.1.symm⟩
      · have hne : (c2 :: rest2 = []) = False := by simp
        cases hit : parseItems fuel cs with
        | none =>
          rw [hit] at h
          split at h <;> simp_all
        | some pr =>
          rw [hit] at h
          split at h <;> simp_all
          exact ⟨pr.1, h.1.symm⟩

/-- `json.loads` on text whose first character is `[` can only return a
list value. -/
theorem pyLoads_lbrack {cs : List Char} {v : PyVal}
    (h : pyLoads ('[' :: cs) = some v) : ∃ xs, v = .vlist xs := by
  unfold pyLoads at h
  cases hp : parseVal (2 * ('[' :: cs).length + 8) ('[' :: cs) with
  | none => rw [hp] at h; simp at h
  | some pr =>
    obtain ⟨w, rest⟩ := pr
    rw [hp] at h
    by_cases hws : skipWs rest = []
    · simp only [hws, if_pos rfl] at h
      obtain ⟨xs, hxs⟩ := parseVal_lbrack hp
      exact ⟨xs, by simp at h; exact h ▸ hxs⟩
    · simp [hws] at h

/-- C6 (confirmed): payload extraction decodes the raw bytes dropping
invalid sequences, cuts at the first `[`, and `json.loads`-parses from
there: (a) with no `[` in the decoded text the result is the
no-delimiter `ParseFailure` (and `extract` is total, so neither failure
mode crashes); (b) any successful parse is a structured *list*; (c) the
spec's concrete example `"garbage<<<[{"a":1}]"` yields exactly the
single-element list `[{"a": 1}]`. -/
theorem extract_payload_spec :
    (∀ raw : List Nat, '[' ∉ pyDecode raw → extract raw = .noDelimiter) ∧
    (∀ (raw : List Nat) (v : PyVal), extract raw = .ok v → ∃ xs, v = .vlist xs) ∧
    extract (asciiBytes "garbage<<<[\x7b\"a\":1\x7d]") =
      .ok (.vlist [.vdict [("a", .vint 1)]]) := by
  refine ⟨?_, ?_, by decide⟩
  · intro raw h
    unfold extract
    have hnil : (pyDecode raw).dropWhile (fun c => !(c == '[')) = [] := by
      rw [List.dropWhile_eq_nil_iff]
      intro x hx
      simp
      exact fun he => h (he ▸ hx)
    rw [hnil]
  · intro raw v h
    unfold extract at h
    cases htail : (pyDecode raw).dropWhile (fun c => !(c == '[')) with
    | nil => rw [htail] at h; simp at h
    | cons c cs =>
      rw [htail] at h
      have hc : c = '[' := by simpa using dropWhile_head_false htail
      subst hc
      cases hload : pyLoads ('[' :: cs) with
      | none => simp [hload] at h
      | some w =>
        simp only [hload] at h
        simp at h
        obtain ⟨xs, hxs⟩ := pyLoads_lbrack hload
        exact ⟨xs, h ▸ hxs⟩

/-- C6 witness: bytes with no `[` anywhere produce the no-delimiter
failure. -/
theorem extract_payload_spec_witness :
    extract (asciiBytes "plain text, no bracket") = .noDelimiter :=
  extract_payload_spec.1 (asciiBytes "plain text, no bracket") (by decide)

/-- `listStartsWith` is the prefix relation. -/
theorem listStartsWith_iff {α : Type} [DecidableEq α] :
    ∀ (ps cs : List α), (listStartsWith ps cs = true ↔ ∃ post, cs = ps ++ post) := by
  intro ps
  induction ps with
  | nil => intro cs; simp [listStartsWith]
  | cons p ps ih =>
    intro cs
    cases cs with
    | nil => simp [listStartsWith]
    | cons c cs' =>
      simp only [listStartsWith, Bool.and_eq_true, decide_eq_true_eq, ih,
        List.cons_append, List.cons.injEq]
      constructor
      · rintro ⟨rfl, post, rfl⟩
        exact ⟨post, rfl, rfl⟩
      · rintro ⟨post, rfl, rfl⟩
        exact ⟨rfl, post, rfl⟩

/-- A successful backtracking step captures exactly `n` word characters
followed by the fixed `_<sem>.html` tail. -/
theorem tryCodeLen_sound {cs sem code : List Char} {n : Nat}
    (h : tryCodeLen cs sem n = some code) :
    code.length = n ∧ code.all isWordChar = true ∧
      ∃ post, cs = code ++ (tailPat sem ++ post) := by
  rw [tryCodeLen] at h
  split at h
  case isFalse => exact absurd h (by simp)
  case isTrue hcond =>
    obtain ⟨⟨h1, h2⟩, h3⟩ := by simpa [Bool.and_eq_true] using hcond
    injection h with h'
    obtain ⟨post, hpost⟩ := (listStartsWith_iff _ _).mp h3
    subst h'
    refine ⟨by simp [List.length_take]; omega, List.all_eq_true.mpr h2, post, ?_⟩
    conv_lhs => rw [← List.take_append_drop n cs, hpost]

/-- A successful regex match at a fixed `/` position captures 2-6 word
characters followed by the fixed tail. -/
theorem matchCodeAt_sound {cs sem code : List Char}
    (h : matchCodeAt cs sem = some code) :
    2 ≤ code.length ∧ code.length ≤ 6 ∧ code.all isWordChar = true ∧
      ∃ post, cs = code ++ (tailPat sem ++ post) := by
  have finish : ∀ {n : Nat}, tryCodeLen cs sem n = some code → 2 ≤ n → n ≤ 6 →
      2 ≤ code.length ∧ code.length ≤ 6 ∧ code.all isWordChar = true ∧
        ∃ post, cs = code ++ (tailPat sem ++ post) := by
    intro n hn h2 h6
    obtain ⟨hlen, hw, post, hpost⟩ := tryCodeLen_sound hn
    exact ⟨hlen ▸ h2, hlen ▸ h6, hw, post, hpost⟩
  rw [matchCodeAt] at h
  cases h6 : tryCodeLen cs sem 6 with
  | some c => rw [h6] at h; simp at h; exact finish (h ▸ h6) (by omega) (by omega)
  | none =>
    rw [h6] at h; simp only [Option.none_orElse] at h
    cases h5 : tryCodeLen cs sem 5 with
    | some c => rw [h5] at h; simp at h; exact finish (h ▸ h5) (by omega) (by omega)
    | none =>
      rw [h5] at h; simp only [Option.none_orElse] at h
      cases h4 : tryCodeLen cs sem 4 with
      | some c => rw [h4] at h; simp at h; exact finish (h ▸ h4) (by omega) (by omega)
      | none =>
        rw [h4] at h; simp only [Option.none_orElse] at h
        cases h3 : tryCodeLen cs sem 3 with
        | some c => rw [h3] at h; simp at h; exact finish (h ▸ h3) (by omega) (by omega)
        | none =>
          rw [h3] at h; simp only [Option.none_orElse] at h
          exact finish h (by omega) (by omega)

/-- `re.search` soundness: an extracted group is 2-6 word characters
standing between a `/` and the `_<sem>.html` tail somewhere in the
scanned string. -/
theorem searchCode_sound {sem : List Char} :
    ∀ {cs code : List Char}, searchCode cs sem = some code →
      2 ≤ code.length ∧ code.length ≤ 6 ∧ code.all isWordChar = true ∧
        ∃ pre post, cs = pre ++ '/' :: (code ++ (tailPat sem ++ post)) := by
  intro cs
  induction cs with
  | nil => intro code h; simp [searchCode] at h
  | cons c cs' ih =>
    intro code h
    rw [searchCode] at h
    by_cases hc : c = '/'
    · subst hc
      rw [if_pos rfl] at h
      cases hm : matchCodeAt cs' sem with
      | some code' =>
        rw [hm] at h
        injection h with h'
        subst h'
        obtain ⟨h2, h6, hw, post, hpost⟩ := matchCodeAt_sound hm
        exact ⟨h2, h6, hw, [], post, by rw [← hpost]; rfl⟩
      | none =>
        rw [hm] at h
        obtain ⟨h2, h6, hw, pre, post, hp⟩ := ih h
        exact ⟨h2, h6, hw, '/' :: pre, post, by rw [hp]; rfl⟩
    · rw [if_neg hc] at h
      obtain ⟨h2, h6, hw, pre, post, hp⟩ := ih h
      exact ⟨h2, h6, hw, c :: pre, post, by rw [hp]; rfl⟩

/-- Any anchor of the scanned region whose href matches contributes its
captured code to the result list. -/
theorem mem_parse_department_page {rows : List (List String)} {sem : String}
    {row : List String} {href : String} {cl : List Char}
    (hrow : row ∈ (rows.drop 3).dropLast) (hhref : href ∈ row)
    (h : searchCode href.data sem.data = some cl) :
    String.mk cl ∈ parse_department_page rows sem := by
  unfold parse_department_page
  rw [List.mem_flatMap]
  exact ⟨row, hrow, List.mem_filterMap.mpr ⟨href, hhref, by rw [h]; rfl⟩⟩

/-- C7 (corrected): `parse_department_page` emits one category code per
matching hyperlink of the scanned `[3:-1]` row region — every emitted
code is 2-6 word characters standing between a `/` and
`_<period_token>.html` in some scanned href, and every href whose search
succeeds contributes its captured code — but the result is a *list* in
scan order, not a set: the same matching target appearing twice yields a
duplicate entry (deduplication only happens downstream in discovery).
On markup with no matching anchors the result is the empty list, and
the function is total, so unparseable fragments cannot make it fail. -/
theorem parse_department_page_spec (rows : List (List String)) (sem : String) :
    (∀ code ∈ parse_department_page rows sem,
      ∃ cl, code = String.mk cl ∧ 2 ≤ cl.length ∧ cl.length ≤ 6 ∧
        cl.all isWordChar = true ∧
        ∃ row ∈ (rows.drop 3).dropLast, ∃ href ∈ row, ∃ pre post,
          href.data = pre ++ '/' :: (cl ++ (tailPat sem.data ++ post))) ∧
    (∀ row ∈ (rows.drop 3).dropLast, ∀ href ∈ row, ∀ cl,
      searchCode href.data sem.data = some cl →
        String.mk cl ∈ parse_department_page rows sem) := by
  constructor
  · intro code hcode
    unfold parse_department_page at hcode
    rw [List.mem_flatMap] at hcode
    obtain ⟨row, hrow, hmem⟩ := hcode
    obtain ⟨href, hhref, hf⟩ := List.mem_filterMap.mp hmem
    cases hs : searchCode href.data sem.data with
    | none => rw [hs] at hf; simp at hf
    | some cl =>
      rw [hs] at hf
      simp only [Option.map_some'] at hf
      injection hf with hf
      obtain ⟨h2, h6, hw, pre, post, hp⟩ := searchCode_sound hs
      exact ⟨cl, hf.symm, h2, h6, hw, row, hrow, href, hhref, pre, post, hp⟩
  · intro row hrow href hhref cl h
    exact mem_parse_department_page hrow hhref h

/-- C7 witness: the soundness half applied to one matching anchor
`/HIST_Fall2025.html` in the scanned region. -/
theorem parse_department_page_spec_witness :
    "HIST" ∈ parse_department_page
      [[], [], [], ["/HIST_Fall2025.html"], []] "Fall2025" :=
  (parse_department_page_spec [[], [], [], ["/HIST_Fall2025.html"], []]
      "Fall2025").2
    ["/HIST_Fall2025.html"] (by decide) "/HIST_Fall2025.html" (by decide)
    "HIST".data (by decide)

/-- C7 counterexample: the same matching target in two scanned rows is
emitted twice — the result is not a duplicate-free set. -/
theorem parse_department_page_duplicates_counterexample :
    parse_department_page
        [[], [], [], ["/HIST_Fall2025.html"], ["/HIST_Fall2025.html"], []]
        "Fall2025" = ["HIST", "HIST"] ∧
    ¬ (parse_department_page
        [[], [], [], ["/HIST_Fall2025.html"], ["/HIST_Fall2025.html"], []]
        "Fall2025").Nodup := by
  refine ⟨by decide, by decide⟩

/-- Case split of `lexLe` on two nonempty lists. -/
theorem lexLe_cons_iff {a b : Char} {as bs : List Char} :
    lexLe (a :: as) (b :: bs) = true ↔
      a.toNat < b.toNat ∨ (a.toNat = b.toNat ∧ lexLe as bs = true) := by
  by_cases h1 : a.toNat < b.toNat
  · simp [lexLe, h1]
  · by_cases h2 : a.toNat = b.toNat <;> simp [lexLe, h1, h2]

/-- Lexicographic order is total. -/
theorem lexLe_total : ∀ as bs : List Char,
    lexLe as bs = true ∨ lexLe bs as = true := by
  intro as
  induction as with
  | nil => intro bs; left; rfl
  | cons a as ih =>
    intro bs
    cases bs with
    | nil => right; rfl
    | cons b bs =>
      rcases Nat.lt_trichotomy a.toNat b.toNat with h | h | h
      · left; rw [lexLe_cons_iff]; exact Or.inl h
      · rcases ih bs with h' | h'
        · left; rw [lexLe_cons_iff]; exact Or.inr ⟨h, h'⟩
        · right; rw [lexLe_cons_iff]; exact Or.inr ⟨h.symm, h'⟩
      · right; rw [lexLe_cons_iff]; exact Or.inl h

/-- Lexicographic order is transitive. -/
theorem lexLe_trans : ∀ as bs cs : List Char,
    lexLe as bs = true → lexLe bs cs = true → lexLe as cs = true := by
  intro as
  induction as with
  | nil => intro bs cs _ _; rfl
  | cons a as ih =>
    intro bs cs h1 h2
    cases bs with
    | nil => simp [lexLe] at h1
    | cons b bs =>
      cases cs with
      | nil => simp [lexLe] at h2
      | cons c cs =>
        rw [lexLe_cons_iff] at h1 h2 ⊢
        rcases h1 with h1 | ⟨h1e, h1r⟩
        · rcases h2 with h2 | ⟨h2e, h2r⟩
          · exact Or.inl (h1.trans h2)
          · exact Or.inl (by omega)
        · rcases h2 with h2 | ⟨h2e, h2r⟩
          · exact Or.inl (by omega)
          · exact Or.inr ⟨h1e.trans h2e, ih bs cs h1r h2r⟩

instance : IsTotal String (fun a b => strLe a b = true) :=
  ⟨fun a b => lexLe_total a.data b.data⟩

instance : IsTrans String (fun a b => strLe a b = true) :=
  ⟨fun a b c => lexLe_trans a.data b.data c.data⟩

/-- `sorted(set(·))` output is sorted under Python string comparison. -/
theorem sortedDedup_sorted (l : List String) :
    List.Sorted (fun a b => strLe a b = true) (sortedDedup l) :=
  List.sorted_insertionSort _ _

/-- The harvest fold is the concatenation, in department order, of the
per-department contributions. -/
theorem harvestAll_eq_flatMap (oracle : String → Option (List Nat)) :
    ∀ (depts : List String) (acc : List PyVal),
      depts.foldl (fun a dept => a ++ harvestDept oracle dept) acc =
        acc ++ depts.flatMap (harvestDept oracle) := by
  intro depts
  induction depts with
  | nil => intro acc; simp
  | cons d ds ih => intro acc; simp [List.foldl_cons, ih]

/-- C8 (confirmed): the harvest loop is a total function that processes
the department list in its given order — for the pipeline that list is
the discovery output, which is sorted — and returns exactly the
concatenation of each department's decoded records in in-payload order.
A department whose fetch fails, returns an empty body, or fails payload
parsing contributes the empty list, and one that succeeds contributes
its full decoded payload, so when N of M categories fail the output is
precisely the records of the other M−N categories and the run
completes without any fatal condition. -/
theorem harvest_partial_failure (oracle : String → Option (List Nat))
    (depts : List String) (soup : List Nat → List (List String))
    (idx : Fin 26 → Option (List Nat)) (sem : String) (manual : List String) :
    harvestAll oracle depts = depts.flatMap (harvestDept oracle) ∧
    (∀ d, oracle d = none → harvestDept oracle d = []) ∧
    (∀ d, oracle d = some [] → harvestDept oracle d = []) ∧
    (∀ d raw, oracle d = some raw →
      (extract raw = .noDelimiter ∨ extract raw = .malformed) →
      harvestDept oracle d = []) ∧
    (∀ d raw xs, oracle d = some raw → raw ≠ [] →
      extract raw = .ok (.vlist xs) → harvestDept oracle d = xs) ∧
    List.Sorted (fun a b => strLe a b = true) (discover soup idx sem manual) := by
  refine ⟨harvestAll_eq_flatMap oracle depts [], ?_, ?_, ?_, ?_,
    sortedDedup_sorted _⟩
  · intro d hd; simp [harvestDept, hd]
  · intro d hd; simp [harvestDept, hd]
  · intro d raw hd hfail
    by_cases hraw : raw = []
    · simp [harvestDept, hd, hraw]
    · rcases hfail with hf | hf <;> simp [harvestDept, hd, hraw, hf]
  · intro d raw xs hd hraw hok
    simp [harvestDept, hd, hraw, hok]

/-- C8 witness: with only `"HIST"`'s shard succeeding (payload `[1]`),
its contribution is the decoded record list. -/
theorem harvest_partial_failure_witness :
    harvestDept
        (fun d => if d = "HIST" then some (asciiBytes "[1]") else none)
        "HIST" = [.vint 1] :=
  (harvest_partial_failure
      (fun d => if d = "HIST" then some (asciiBytes "[1]") else none)
      ["AAAA", "HIST"] (fun _ => []) (fun _ => none) "Fall2025"
      MANUAL_DEPTS).2.2.2.2.1
    "HIST" (asciiBytes "[1]") [.vint 1] (by decide) (by decide) (by decide)

/-- `flatMap` only depends on the function's values on the list. -/
theorem flatMap_congr_local {α β : Type} {l : List α} {f g : α → List β}
    (h : ∀ x ∈ l, f x = g x) : l.flatMap f = l.flatMap g := by
  induction l with
  | nil => rfl
  | cons a as ih =>
    simp only [List.flatMap_cons, h a (List.mem_cons_self _ _),
      ih fun x hx => h x (List.mem_cons_of_mem _ hx)]

/-- C10 (confirmed): both pipeline phases treat a successful fetch with
an empty (zero-byte) body exactly like a fetch failure, because both
guard with Python falsiness (`if not page` / `if not raw`) — swapping
`none` and `some []` anywhere in the fetch oracles changes neither the
discovery output nor the harvest output, so callers cannot distinguish
an empty response from retry exhaustion. -/
theorem empty_body_like_failure (soup : List Nat → List (List String))
    (sem : String) (o o' : Fin 26 → Option (List Nat))
    (orc orc' : String → Option (List Nat)) (depts : List String)
    (h : ∀ i, o i = o' i ∨ (o i = some [] ∧ o' i = none) ∨
      (o i = none ∧ o' i = some []))
    (h2 : ∀ d, orc d = orc' d ∨ (orc d = some [] ∧ orc' d = none) ∨
      (orc d = none ∧ orc' d = some [])) :
    get_departments soup o sem = get_departments soup o' sem ∧
    harvestAll orc depts = harvestAll orc' depts := by
  constructor
  · unfold get_departments
    congr 1
    apply flatMap_congr_local
    intro i _
    rcases h i with he | ⟨ha, hb⟩ | ⟨ha, hb⟩
    · rw [he]
    · rw [ha, hb]; simp
    · rw [ha, hb]; simp
  · have hdept : ∀ d, harvestDept orc d = harvestDept orc' d := by
      intro d
      rcases h2 d with he | ⟨ha, hb⟩ | ⟨ha, hb⟩
      · unfold harvestDept; rw [he]
      · unfold harvestDept; rw [ha, hb]; simp
      · unfold harvestDept; rw [ha, hb]; simp
    unfold harvestAll
    rw [harvestAll_eq_flatMap, harvestAll_eq_flatMap]
    exact congrArg _ (flatMap_congr_local fun d _ => hdept d)

/-- C10 witness: an all-empty-body oracle and an all-failing oracle give
identical discovery and harvest results. -/
theorem empty_body_like_failure_witness :
    get_departments (fun _ => []) (fun _ => some []) "Fall2025" =
      get_departments (fun _ => []) (fun _ => none) "Fall2025" ∧
    harvestAll (fun _ => some []) MANUAL_DEPTS =
      harvestAll (fun _ => none) MANUAL_DEPTS :=
  empty_body_like_failure (fun _ => []) "Fall2025" (fun _ => some [])
    (fun _ => none) (fun _ => some []) (fun _ => none) MANUAL_DEPTS
    (fun _ => Or.inr (Or.inl ⟨rfl, rfl⟩))
    (fun _ => Or.inr (Or.inl ⟨rfl, rfl⟩))

end Scraper
